import Mathlib

/-!
Verification of the networkapp frontend execution core, shallowly embedded
from the repository sources: the interactive terminal websocket client
(TerminalView), the two CommandExecutor websocket message handlers, the
AI Runner plan submission, the AI chat command extractor, and the (spec
modelled) command execution engine submit operation.
-/

/-! ## Terminal websocket client (TerminalView) -/

/-- Browser WebSocket ready states, as compared against WebSocket.OPEN. -/
inductive WsReadyState where
  | CONNECTING
  | OPEN
  | CLOSING
  | CLOSED
  deriving DecidableEq

/-- The terminal state a send site reads: current dimensions (after the
fit addon has updated them) and the websocket ready state. -/
structure TermState where
  cols : Nat
  rows : Nat
  wsReadyState : WsReadyState
  deriving DecidableEq

/-- The JSON shapes the terminal client ever serialises onto the terminal
websocket: an input message carrying a data string, or a resize message
carrying numeric cols and rows. -/
inductive ClientMsg where
  | input (data : String)
  | resize (cols rows : Nat)
  deriving DecidableEq

/-- trySendResize in TerminalView: after fitting, sends a resize message
with the terminal's current cols and rows, but only when the socket is
OPEN; otherwise nothing is sent. -/
def trySendResize (st : TermState) : Option ClientMsg :=
  if st.wsReadyState = WsReadyState.OPEN then
    some (ClientMsg.resize st.cols st.rows)
  else none

/-- The term.onData handler in TerminalView: forwards each keystroke chunk
verbatim as an input message when the socket is OPEN. -/
def termOnData (st : TermState) (data : String) : Option ClientMsg :=
  if st.wsReadyState = WsReadyState.OPEN then
    some (ClientMsg.input data)
  else none

/-- sendCommandToTerminal in TerminalView: a command coming from the AI
chat is sent as an input message with exactly one newline appended, when
the socket is OPEN. -/
def sendCommandToTerminal (st : TermState) (command : String) : Option ClientMsg :=
  if st.wsReadyState = WsReadyState.OPEN then
    some (ClientMsg.input (command ++ "\n"))
  else none

/-- refitTerminal in TerminalView: after refitting, sends a resize message
with the terminal's current cols and rows when the socket is OPEN. -/
def refitTerminalSend (st : TermState) : Option ClientMsg :=
  if st.wsReadyState = WsReadyState.OPEN then
    some (ClientMsg.resize st.cols st.rows)
  else none

/-- A frame received on the terminal websocket: event.data is either a
string or a non-string (binary) payload. -/
inductive WsFrame where
  | str (s : String)
  | binary (bytes : List Nat)
  deriving DecidableEq

/-- The ws.onmessage handler in TerminalView: writes the payload to the
terminal if it is a string, and the empty string otherwise. -/
def wsOnMessageWrite : WsFrame → String
  | WsFrame.str s => s
  | WsFrame.binary _ => ""

/-! ## AI Runner plan submission (CommandExecutor, extended version) -/

/-- One step of an AI plan as rendered in the AI Runner tab. -/
structure PlanStep where
  id : String
  description : String
  command : String
  deriving DecidableEq

/-- Outcome of pressing Run Plan: either a list of commands submitted to
the execute endpoint, or no submission together with an error toast. -/
structure RunPlanResult where
  submitted : Option (List String)
  errorShown : Bool
  deriving DecidableEq

/-- The Run Plan onClick handler in the AI Runner: collects the commands
of the selected steps in presentation order; if none is selected it shows
an error and submits nothing, otherwise it posts exactly those commands
to the execute endpoint. -/
def runPlanClick (steps : List PlanStep) (selected : String → Bool) : RunPlanResult :=
  let cmds := (steps.filter (fun s => selected s.id)).map PlanStep.command
  if cmds.length = 0 then
    { submitted := none, errorShown := true }
  else
    { submitted := some cmds, errorShown := false }

/-! ## CommandExecutor websocket message handlers (basic and extended) -/

/-- A parsed message received on the executor websocket, with the fields
the two handlers read: type, and for progress events the command, status
and optional output; for terminal events the optional execution id and
the error text. -/
structure WsMsg where
  type : String
  command : String
  status : String
  output : Option String
  execution_id : Option String
  error : String
  deriving DecidableEq

/-- A user-visible or network side effect performed by a handler. -/
inductive UiEffect where
  | toastInfo (msg : String)
  | toastSuccess (msg : String)
  | toastError (msg : String)
  | fetchExecutionSnapshot (id : String)
  | reloadExecutionHistory
  | logUnknownMessage
  deriving DecidableEq

/-- State of the basic CommandExecutor version that the handler mutates. -/
structure BasicExecutorState where
  isExecuting : Bool
  deriving DecidableEq

/-- State of the extended CommandExecutor version that the handler
mutates: the executing flag and the live-output map (command to partial
output; none means no entry). -/
structure ExtExecutorState where
  isExecuting : Bool
  liveOutputs : String → Option String

/-- The updater passed to setLiveOutputs for an execution_progress event:
on a started status with no existing entry it creates an empty entry; on
a completed or error status with a string output it sets the entry to
that output; otherwise it leaves the map unchanged. -/
def updateLiveOutputs (prev : String → Option String) (command status : String)
    (output : Option String) : String → Option String :=
  if status = "started" ∧ prev command = none then
    fun c => if c = command then some "" else prev c
  else if (status = "completed" ∨ status = "error") ∧ output.isSome then
    fun c => if c = command then output else prev c
  else prev

/-- handleWebSocketMessage of the basic CommandExecutor version. -/
def handleWebSocketMessageBasic (st : BasicExecutorState) (msg : WsMsg) :
    BasicExecutorState × List UiEffect :=
  if msg.type = "execution_started" then
    (st, [UiEffect.toastInfo "Command execution started"])
  else if msg.type = "execution_completed" then
    ({ st with isExecuting := false },
      [UiEffect.toastSuccess "Commands executed successfully",
        UiEffect.reloadExecutionHistory])
  else if msg.type = "execution_failed" then
    ({ st with isExecuting := false },
      [UiEffect.toastError ("Execution failed: " ++ msg.error)])
  else
    (st, [UiEffect.logUnknownMessage])

/-- handleWebSocketMessage of the extended CommandExecutor version.  An
execution id that is absent or empty is falsy in the source, so no
snapshot fetch is issued for it. -/
def handleWebSocketMessageExt (st : ExtExecutorState) (msg : WsMsg) :
    ExtExecutorState × List UiEffect :=
  if msg.type = "execution_started" then
    ({ st with liveOutputs := fun _ => none },
      [UiEffect.toastInfo "Command execution started"])
  else if msg.type = "execution_progress" then
    ({ st with liveOutputs := updateLiveOutputs st.liveOutputs msg.command msg.status msg.output },
      [])
  else if msg.type = "execution_completed" then
    ({ st with isExecuting := false },
      UiEffect.toastSuccess "Commands executed successfully" ::
        ((match msg.execution_id with
          | some id => if id = "" then [] else [UiEffect.fetchExecutionSnapshot id]
          | none => []) ++ [UiEffect.reloadExecutionHistory]))
  else if msg.type = "execution_failed" then
    ({ st with isExecuting := false },
      UiEffect.toastError ("Execution failed: " ++ msg.error) ::
        ((match msg.execution_id with
          | some id => if id = "" then [] else [UiEffect.fetchExecutionSnapshot id]
          | none => []) ++ [UiEffect.reloadExecutionHistory]))
  else
    (st, [UiEffect.logUnknownMessage])

/-! ## Command execution engine submit (spec modelled) and submit buttons -/

/-- Execution status values of the spec's state machine. -/
inductive ExecStatus where
  | queued
  | running
  | completed
  | failed
  deriving DecidableEq

/-- An execution is terminal exactly in the completed and failed states. -/
def ExecStatus.isTerminal : ExecStatus → Bool
  | ExecStatus.completed => true
  | ExecStatus.failed => true
  | _ => false

/-- An Execution record held by the engine. -/
structure EngineExecution where
  id : Nat
  deviceId : String
  commands : List String
  status : ExecStatus
  deriving DecidableEq

/-- The engine's shared state: all executions ever accepted. -/
structure EngineState where
  executions : List EngineExecution
  deriving DecidableEq

/-- The only submit rejection of the spec's contract. -/
inductive SubmitError where
  | Busy
  deriving DecidableEq

/-- Modelled from the spec: the backend CommandExecutionEngine is not in
the repository sources, so its submit contract is taken from the spec:
submit(device_id, commands) is rejected immediately with Busy when an
Execution for that device is already non-terminal (no implicit
queueing); on accept it creates a running Execution for the batch. -/
def submit (st : EngineState) (dev : String) (cmds : List String) :
    Except SubmitError (EngineState × EngineExecution) :=
  if st.executions.any (fun e => e.deviceId == dev && !e.status.isTerminal) then
    Except.error SubmitError.Busy
  else
    Except.ok
      ({ executions := ⟨st.executions.length, dev, cmds, ExecStatus.running⟩ :: st.executions },
        ⟨st.executions.length, dev, cmds, ExecStatus.running⟩)

/-- The Execute Commands button in CommandExecutor carries
disabled = isExecuting, so it is disabled exactly while executing. -/
def executeButtonDisabled (isExecuting : Bool) : Bool := isExecuting

/-- The AI Runner's Run Plan button in CommandExecutor carries no
disabled attribute at all, so it is never disabled. -/
def runPlanButtonDisabled (_isExecuting : Bool) : Bool := false

/-! ## Clearing ran commands (CommandExecutor, extended version) -/

/-- JavaScript whitespace as used by the \s class and trim on the
characters that can occur here. -/
def jsWhitespace (c : Char) : Bool :=
  c == ' ' || c == '\t' || c == '\n' || c == '\r' || c == '\x0b' || c == '\x0c'

/-- String.prototype.split with separator newline, on character lists. -/
def splitLines : List Char → List (List Char)
  | [] => [[]]
  | c :: rest =>
    if c = '\n' then [] :: splitLines rest
    else
      match splitLines rest with
      | [] => [[c]]
      | l :: ls => (c :: l) :: ls

/-- Array.prototype.join with separator newline, on character lists. -/
def joinLines : List (List Char) → List Char
  | [] => []
  | [l] => l
  | l :: l2 :: ls => l ++ '\n' :: joinLines (l2 :: ls)

/-- String.prototype.trim on character lists. -/
def trimChars (l : List Char) : List Char :=
  ((l.dropWhile jsWhitespace).reverse.dropWhile jsWhitespace).reverse

/-- The command-selection state clearRanCommands reads and writes. -/
structure SelectionState where
  selectedCommands : List (List Char)
  customCommands : List Char

/-- clearRanCommands in the extended CommandExecutor: with the last
execution's command list as the ran set, drops ran commands from the
selected list and drops from the custom text the lines whose trimmed text
is ran; with no last execution the selected list is filtered against the
empty set and the custom text is untouched. -/
def clearRanCommands (st : SelectionState) (execution : Option (List (List Char))) :
    SelectionState :=
  let ran : List (List Char) := execution.getD []
  { selectedCommands := st.selectedCommands.filter (fun c => !decide (c ∈ ran)),
    customCommands :=
      match execution with
      | none => st.customCommands
      | some _ =>
        joinLines ((splitLines st.customCommands).filter
          (fun line => !decide (trimChars line ∈ ran))) }

/-! ## AI chat command extraction (AIChat) -/

/-- The backtick character used by fenced code blocks. -/
def backtick : Char := Char.ofNat 96

/-- A character the dot regex class matches (anything but a line
terminator). -/
def dotOk (c : Char) : Bool := !(c == '\n') && !(c == '\r')

/-- Whether the text starts with a three-backtick fence. -/
def startsWithFence : List Char → Bool
  | c1 :: c2 :: c3 :: _ => c1 == backtick && c2 == backtick && c3 == backtick
  | _ => false

/-- Case-insensitive comparison of a character against a lowercase
letter, for the i flag of the code-block regex. -/
def lowEq (c d : Char) : Bool := c.toLower == d

/-- Consume a case-insensitive bash language tag followed by a newline. -/
def stripBashNl : List Char → Option (List Char)
  | b :: a :: s :: h :: c :: rest =>
    if lowEq b 'b' && lowEq a 'a' && lowEq s 's' && lowEq h 'h' && c == '\n' then some rest
    else none
  | _ => none

/-- Consume a case-insensitive sh language tag followed by a newline. -/
def stripShNl : List Char → Option (List Char)
  | s :: h :: c :: rest =>
    if lowEq s 's' && lowEq h 'h' && c == '\n' then some rest
    else none
  | _ => none

/-- Consume a bare newline. -/
def stripNl : List Char → Option (List Char)
  | c :: rest => if c == '\n' then some rest else none
  | _ => none

/-- After an opening fence, the regex alternative (bash or sh or nothing)
followed by the required newline, tried in that order. -/
def afterFenceLang (cs : List Char) : Option (List Char) :=
  match stripBashNl cs with
  | some rest => some rest
  | none =>
    match stripShNl cs with
    | some rest => some rest
    | none => stripNl cs

/-- The lazy capture: the shortest prefix up to a closing fence, with the
remainder after that fence. -/
def findClose : List Char → Option (List Char × List Char)
  | [] => none
  | c :: cs =>
    if startsWithFence (c :: cs) then some ([], cs.drop 2)
    else
      match findClose cs with
      | some (cap, rest) => some (c :: cap, rest)
      | none => none

/-- A match of the code-block regex at exactly this position. -/
def matchFenceAt (cs : List Char) : Option (List Char × List Char) :=
  if startsWithFence cs then
    match afterFenceLang (cs.drop 3) with
    | some cs2 => findClose cs2
    | none => none
  else none

/-- Global scan of the code-block regex: earliest match first, resuming
after each match; the fuel (instantiated with the text length, an upper
bound since every step consumes at least one character) makes the
recursion structural. -/
def scanBlocks : Nat → List Char → List (List Char)
  | 0, _ => []
  | _, [] => []
  | fuel + 1, c :: cs =>
    match matchFenceAt (c :: cs) with
    | some (cap, rest) => cap :: scanBlocks fuel rest
    | none => scanBlocks fuel cs

/-- One replace of the anchored dollar-prompt regex: a leading dollar and
the following whitespace run are removed, anything else is unchanged. -/
def stripDollar : List Char → List Char
  | [] => []
  | c :: rest => if c = '$' then rest.dropWhile jsWhitespace else c :: rest

/-- Whether a line starts with the comment character. -/
def startsWithHash : List Char → Bool
  | [] => false
  | c :: _ => c == '#'

/-- A captured code block is split into lines, each line has its dollar
prompt stripped and is trimmed, and empty lines and comment lines are
dropped. -/
def processBlock (block : List Char) : List (List Char) :=
  ((splitLines block).map (fun ln => trimChars (stripDollar ln))).filter
    (fun ln => !ln.isEmpty && !startsWithHash ln)

/-- Backtracking of the greedy whitespace star before the dot-plus of the
dollar-line regex: the largest drop not exceeding k whose remainder is a
nonempty run of dot-matchable characters. -/
def tryCapture (after : List Char) : Nat → Option (List Char)
  | 0 => if !after.isEmpty && after.all dotOk then some after else none
  | k + 1 =>
    if !(after.drop (k + 1)).isEmpty && (after.drop (k + 1)).all dotOk then
      some (after.drop (k + 1))
    else tryCapture after k

/-- The dollar-line regex applied to one line: a leading dollar, a greedy
whitespace run, then a nonempty capture of dot-matchable characters
reaching the end of the line. -/
def dollarCapture : List Char → Option (List Char)
  | [] => none
  | c :: rest =>
    if c = '$' then tryCapture rest (rest.takeWhile jsWhitespace).length
    else none

/-- The de-duplication loop of extractCommandsFromText: a seen set and a
first-occurrence list, in order. -/
def dedupKeepFirst (seen : List (List Char)) : List (List Char) → List (List Char)
  | [] => []
  | c :: rest =>
    if c ∈ seen then dedupKeepFirst seen rest
    else c :: dedupKeepFirst (c :: seen) rest

/-- extractCommandsFromText in AIChat: commands from fenced code blocks
(stripped, trimmed, non-empty, non-comment), then captures of
dollar-prompt lines over the whole text, de-duplicated keeping first
occurrences and truncated to twenty. -/
def extractCommandsFromText (text : List Char) : List (List Char) :=
  ((dedupKeepFirst []
    ((scanBlocks text.length text).flatMap processBlock ++
      (splitLines text).filterMap dollarCapture)).take 20)

/-! ## Helper lemmas, claim theorems, witnesses and counterexamples -/

/-- C2: every message the terminal client sends over the terminal
websocket is either an input message carrying the data verbatim (with a
command from the AI chat getting exactly one trailing newline) or a
resize message carrying the terminal's current cols and rows; the four
send sites are the only ones, and none sends anything unless the socket
ready state is OPEN. -/
theorem terminal_ws_send_shapes (st : TermState) (data command : String) :
    (st.wsReadyState ≠ WsReadyState.OPEN →
      trySendResize st = none ∧ termOnData st data = none ∧
        sendCommandToTerminal st command = none ∧ refitTerminalSend st = none)
  ∧ (st.wsReadyState = WsReadyState.OPEN →
      trySendResize st = some (ClientMsg.resize st.cols st.rows) ∧
        termOnData st data = some (ClientMsg.input data) ∧
        sendCommandToTerminal st command = some (ClientMsg.input (command ++ "\n")) ∧
        refitTerminalSend st = some (ClientMsg.resize st.cols st.rows)) := by
  constructor
  · intro h
    simp [trySendResize, termOnData, sendCommandToTerminal, refitTerminalSend, h]
  · intro h
    simp [trySendResize, termOnData, sendCommandToTerminal, refitTerminalSend, h]

/-- Witness for C2 at a closed socket and at an open socket. -/
theorem terminal_ws_send_shapes_witness :
    trySendResize ⟨80, 24, WsReadyState.CLOSED⟩ = none
  ∧ sendCommandToTerminal ⟨80, 24, WsReadyState.OPEN⟩ "show version"
      = some (ClientMsg.input ("show version" ++ "\n")) :=
  ⟨((terminal_ws_send_shapes ⟨80, 24, WsReadyState.CLOSED⟩ "x" "y").1 (by decide)).1,
    ((((terminal_ws_send_shapes ⟨80, 24, WsReadyState.OPEN⟩ "x" "show version").2 rfl).2).2).1⟩

/-- C3: every string frame received on the terminal websocket is written
to the terminal display unchanged; there is no JSON parsing, unwrapping
or reformatting of the server-to-client stream. -/
theorem ws_onmessage_writes_string_verbatim (s : String) :
    wsOnMessageWrite (WsFrame.str s) = s := rfl

/-- C10: every non-string (binary) frame received on the terminal
websocket results in the empty string being written to the terminal: the
frame content is silently discarded, and the handler is a total function,
so no error is raised. -/
theorem ws_onmessage_binary_writes_empty (bytes : List Nat) :
    wsOnMessageWrite (WsFrame.binary bytes) = "" := rfl

/-- C1: pressing Run Plan submits exactly the commands of the selected
steps, in the relative order the plan presented them (the submitted list
is a sublist of the full plan's command list), and nothing else; with
zero selected steps nothing is submitted and an error is shown. -/
theorem runPlan_submits_selected_in_order (steps : List PlanStep) (selected : String → Bool) :
    runPlanClick steps selected =
      (if steps.filter (fun s => selected s.id) = [] then
        RunPlanResult.mk none true
      else
        RunPlanResult.mk
          (some ((steps.filter (fun s => selected s.id)).map PlanStep.command)) false)
  ∧ ((steps.filter (fun s => selected s.id)).map PlanStep.command).Sublist
      (steps.map PlanStep.command) := by
  constructor
  · by_cases h : steps.filter (fun s => selected s.id) = []
    · simp [runPlanClick, h]
    · have hlen : ((steps.filter (fun s => selected s.id)).map PlanStep.command).length ≠ 0 := by
        simpa [List.length_eq_zero, List.map_eq_nil_iff] using h
      simp [runPlanClick, h, hlen]
  · exact List.Sublist.map PlanStep.command (List.filter_sublist steps)

/-- C4: for every execution_progress event, a started status with no
existing live-output entry creates an empty entry for the command; a
started status with an existing entry leaves it unchanged; a completed or
error status whose output is a string sets the entry to that output; and
in every case the entries of all other commands are unchanged. -/
theorem execution_progress_updates_live_outputs (prev : String → Option String)
    (command status : String) (output : Option String) :
    (∀ c, c ≠ command → updateLiveOutputs prev command status output c = prev c)
  ∧ (status = "started" → prev command = none →
      updateLiveOutputs prev command status output command = some "")
  ∧ (status = "started" → ∀ v, prev command = some v →
      updateLiveOutputs prev command status output command = some v)
  ∧ ((status = "completed" ∨ status = "error") → ∀ o, output = some o →
      updateLiveOutputs prev command status output command = some o) := by
  refine ⟨?_, ?_, ?_, ?_⟩
  · intro c hc
    unfold updateLiveOutputs
    split_ifs <;> simp [hc]
  · intro hs hn
    simp [updateLiveOutputs, hs, hn]
  · intro hs v hv
    have h1 : ¬(status = "started" ∧ prev command = none) := by
      simp [hs, hv]
    have h2 : ¬((status = "completed" ∨ status = "error") ∧ output.isSome) := by
      subst hs
      simp
    simp [updateLiveOutputs, h1, h2, hv]
  · intro hs o ho
    have h1 : ¬(status = "started" ∧ prev command = none) := by
      rcases hs with h | h <;> subst h <;> simp
    have h2 : (status = "completed" ∨ status = "error") ∧ output.isSome := by
      simp [hs, ho]
    simp [updateLiveOutputs, h1, h2, ho]

/-- Witness for C4: a started event creates an empty entry, an existing
entry survives a started event, a completed event stores the output, and
an unrelated command's entry is untouched. -/
theorem execution_progress_updates_live_outputs_witness :
    updateLiveOutputs (fun _ => none) "show version" "started" none "show version" = some ""
  ∧ updateLiveOutputs (fun c => if c = "show version" then some "partial" else none)
      "show version" "started" none "show version" = some "partial"
  ∧ updateLiveOutputs (fun c => if c = "show version" then some "partial" else none)
      "show version" "completed" (some "done") "show version" = some "done"
  ∧ updateLiveOutputs (fun c => if c = "show version" then some "partial" else none)
      "show version" "completed" (some "done") "show clock" = none :=
  ⟨(execution_progress_updates_live_outputs (fun _ => none) "show version" "started" none).2.1
      rfl rfl,
    (execution_progress_updates_live_outputs
        (fun c => if c = "show version" then some "partial" else none)
        "show version" "started" none).2.2.1 rfl "partial" (by decide),
    (execution_progress_updates_live_outputs
        (fun c => if c = "show version" then some "partial" else none)
        "show version" "completed" (some "done")).2.2.2 (Or.inl rfl) "done" rfl,
    by
      have := (execution_progress_updates_live_outputs
        (fun c => if c = "show version" then some "partial" else none)
        "show version" "completed" (some "done")).1 "show clock" (by decide)
      simpa using this⟩

/-- C6: every execution_failed event clears the executing flag, shows an
error toast whose text contains the event's error text, and when the
event carries a (non-empty, hence truthy) execution id it fetches that
execution's snapshot for display; the effect list always contains the
toast, so the failure is never silently dropped. -/
theorem execution_failed_is_surfaced (st : ExtExecutorState) (msg : WsMsg)
    (h : msg.type = "execution_failed") :
    (handleWebSocketMessageExt st msg).1.isExecuting = false
  ∧ UiEffect.toastError ("Execution failed: " ++ msg.error)
      ∈ (handleWebSocketMessageExt st msg).2
  ∧ (∀ id, msg.execution_id = some id → id ≠ "" →
      UiEffect.fetchExecutionSnapshot id ∈ (handleWebSocketMessageExt st msg).2) := by
  have h1 : ¬msg.type = "execution_started" := by simp [h]
  have h2 : ¬msg.type = "execution_progress" := by simp [h]
  have h3 : ¬msg.type = "execution_completed" := by simp [h]
  refine ⟨?_, ?_, ?_⟩
  · simp [handleWebSocketMessageExt, h, h1, h2, h3]
  · simp [handleWebSocketMessageExt, h, h1, h2, h3]
  · intro id hid hne
    simp [handleWebSocketMessageExt, h, h1, h2, h3, hid, hne]

/-- Witness for C6 on a concrete failed event carrying an execution id. -/
theorem execution_failed_is_surfaced_witness :
    (handleWebSocketMessageExt ⟨true, fun _ => none⟩
        ⟨"execution_failed", "", "", none, some "exec-9", "device unreachable"⟩).1.isExecuting
      = false
  ∧ UiEffect.toastError ("Execution failed: " ++ "device unreachable")
      ∈ (handleWebSocketMessageExt ⟨true, fun _ => none⟩
          ⟨"execution_failed", "", "", none, some "exec-9", "device unreachable"⟩).2
  ∧ UiEffect.fetchExecutionSnapshot "exec-9"
      ∈ (handleWebSocketMessageExt ⟨true, fun _ => none⟩
          ⟨"execution_failed", "", "", none, some "exec-9", "device unreachable"⟩).2 :=
  ⟨(execution_failed_is_surfaced ⟨true, fun _ => none⟩
      ⟨"execution_failed", "", "", none, some "exec-9", "device unreachable"⟩ rfl).1,
    (execution_failed_is_surfaced ⟨true, fun _ => none⟩
      ⟨"execution_failed", "", "", none, some "exec-9", "device unreachable"⟩ rfl).2.1,
    (execution_failed_is_surfaced ⟨true, fun _ => none⟩
      ⟨"execution_failed", "", "", none, some "exec-9", "device unreachable"⟩ rfl).2.2
      "exec-9" rfl (by decide)⟩

/-- C8: on every incoming websocket message the basic handler and the
extended handler perform the same update to the isExecuting flag, and
that common update sets the flag to false exactly on execution_completed
and execution_failed, leaving it unchanged for every other type. -/
theorem handlers_agree_on_isExecuting (flag : Bool) (liveOut : String → Option String)
    (msg : WsMsg) :
    (handleWebSocketMessageBasic ⟨flag⟩ msg).1.isExecuting
      = (handleWebSocketMessageExt ⟨flag, liveOut⟩ msg).1.isExecuting
  ∧ (handleWebSocketMessageExt ⟨flag, liveOut⟩ msg).1.isExecuting
      = (if msg.type = "execution_completed" ∨ msg.type = "execution_failed" then
          false
        else flag) := by
  unfold handleWebSocketMessageBasic handleWebSocketMessageExt
  by_cases h1 : msg.type = "execution_started" <;>
    by_cases h2 : msg.type = "execution_progress" <;>
      by_cases h3 : msg.type = "execution_completed" <;>
        by_cases h4 : msg.type = "execution_failed" <;>
          simp_all

/-- C7 counterexample: while an execution is in progress the Execute
Commands button is disabled, but the Run Plan button is not, and pressing
it with a selected step still submits its command to the execute
endpoint — so a second submission can be initiated from the client while
an execution is in progress, contrary to the claim's final clause. -/
theorem second_client_submission_counterexample :
    executeButtonDisabled true = true
  ∧ runPlanButtonDisabled true = false
  ∧ (runPlanClick [⟨"step-1", "list files", "ls"⟩] (fun _ => true)).submitted
      = some ["ls"] := by
  refine ⟨rfl, rfl, ?_⟩
  decide

/-- C7 amended: while a non-terminal Execution exists for a device, a
second submit for that device fails with Busy and creates nothing (engine
modelled from the spec), and the client's Execute Commands button is
disabled exactly while an execution is in progress; the Run Plan button,
however, is never disabled, so that client path can still issue the
(rejected) second submission. -/
theorem submit_rejects_busy (st : EngineState) (dev : String) (cmds : List String)
    (e : EngineExecution) (he : e ∈ st.executions) (hdev : e.deviceId = dev)
    (hterm : e.status.isTerminal = false) :
    submit st dev cmds = Except.error SubmitError.Busy
  ∧ (∀ b : Bool, executeButtonDisabled b = b)
  ∧ (∀ b : Bool, runPlanButtonDisabled b = false) := by
  refine ⟨?_, fun b => rfl, fun b => rfl⟩
  have hany : st.executions.any (fun e => e.deviceId == dev && !e.status.isTerminal) = true := by
    rw [List.any_eq_true]
    exact ⟨e, he, by simp [hdev, hterm]⟩
  simp [submit, hany]

/-- Witness for the amended C7 on a device with a running execution. -/
theorem submit_rejects_busy_witness :
    submit ⟨[⟨0, "dev1", ["show version"], ExecStatus.running⟩]⟩ "dev1" ["show clock"]
      = Except.error SubmitError.Busy :=
  (submit_rejects_busy ⟨[⟨0, "dev1", ["show version"], ExecStatus.running⟩]⟩ "dev1"
    ["show clock"] ⟨0, "dev1", ["show version"], ExecStatus.running⟩
    (by simp) rfl rfl).1

/-- Splitting a newline-free line yields that single line. -/
theorem splitLines_no_newline (l : List Char) (h : '\n' ∉ l) : splitLines l = [l] := by
  induction l with
  | nil => rfl
  | cons c rest ih =>
    have hc : ¬c = '\n' := by
      intro hEq
      exact h (by simp [hEq])
    have hr : '\n' ∉ rest := fun hm => h (List.mem_cons_of_mem _ hm)
    simp [splitLines, hc, ih hr]

/-- Splitting recurses past one newline-free line and its separator. -/
theorem splitLines_append (l cs : List Char) (h : '\n' ∉ l) :
    splitLines (l ++ '\n' :: cs) = l :: splitLines cs := by
  induction l with
  | nil => simp [splitLines]
  | cons c rest ih =>
    have hc : ¬c = '\n' := by
      intro hEq
      exact h (by simp [hEq])
    have hr : '\n' ∉ rest := fun hm => h (List.mem_cons_of_mem _ hm)
    simp [splitLines, hc, ih hr]

/-- Splitting inverts joining on a nonempty list of newline-free lines. -/
theorem splitLines_joinLines (ls : List (List Char)) (h : ls ≠ [])
    (hnl : ∀ l ∈ ls, '\n' ∉ l) : splitLines (joinLines ls) = ls := by
  induction ls with
  | nil => exact absurd rfl h
  | cons l rest ih =>
    cases rest with
    | nil => simp [joinLines, splitLines_no_newline l (hnl l (by simp))]
    | cons l2 rest2 =>
      have hstep : joinLines (l :: l2 :: rest2) = l ++ '\n' :: joinLines (l2 :: rest2) := rfl
      rw [hstep, splitLines_append l _ (hnl l (by simp))]
      rw [ih (by simp) (fun x hx => hnl x (List.mem_cons_of_mem _ hx))]

/-- Every line produced by splitting is newline-free. -/
theorem mem_splitLines_no_newline (cs : List Char) :
    ∀ l ∈ splitLines cs, '\n' ∉ l := by
  induction cs with
  | nil =>
    intro l hl
    simp [splitLines] at hl
    simp [hl]
  | cons c rest ih =>
    intro l hl
    by_cases hc : c = '\n'
    · subst hc
      simp [splitLines] at hl
      rcases hl with h | h
      · simp [h]
      · exact ih l h
    · cases hsr : splitLines rest with
      | nil =>
        simp [splitLines, hc, hsr] at hl
        subst hl
        intro hmem
        exact hc (List.mem_singleton.mp hmem).symm
      | cons m ms =>
        simp [splitLines, hc, hsr] at hl
        rcases hl with h | h
        · subst h
          intro hmem
          rcases List.mem_cons.mp hmem with h1 | h1
          · exact hc h1.symm
          · exact ih m (by rw [hsr]; exact List.mem_cons_self m ms) h1
        · exact ih l (by rw [hsr]; exact List.mem_cons_of_mem m h)

/-- C9: with a last execution present, clearRanCommands removes from the
selected list exactly the commands in the last execution's command list
(the kept commands form a sublist, preserving order), and removes from
the custom text exactly the lines whose trimmed text is in that list (the
result splitting back to the kept lines, or to one empty line when every
line was removed, since joining an empty list gives the empty text). -/
theorem clearRan_removes_exactly_ran (sel : List (List Char)) (custom : List Char)
    (cmds : List (List Char)) :
    (clearRanCommands ⟨sel, custom⟩ (some cmds)).selectedCommands
        = sel.filter (fun c => !decide (c ∈ cmds))
  ∧ ((clearRanCommands ⟨sel, custom⟩ (some cmds)).selectedCommands).Sublist sel
  ∧ splitLines (clearRanCommands ⟨sel, custom⟩ (some cmds)).customCommands
        = (if (splitLines custom).filter (fun line => !decide (trimChars line ∈ cmds)) = [] then
            [[]]
          else (splitLines custom).filter (fun line => !decide (trimChars line ∈ cmds))) := by
  refine ⟨rfl, List.filter_sublist sel, ?_⟩
  have hproj : (clearRanCommands ⟨sel, custom⟩ (some cmds)).customCommands
      = joinLines ((splitLines custom).filter (fun line => !decide (trimChars line ∈ cmds))) :=
    rfl
  have hsub : ∀ l ∈ (splitLines custom).filter (fun line => !decide (trimChars line ∈ cmds)),
      '\n' ∉ l :=
    fun l hl => mem_splitLines_no_newline custom l (List.mem_of_mem_filter hl)
  by_cases hk : (splitLines custom).filter (fun line => !decide (trimChars line ∈ cmds)) = []
  · rw [hproj, hk, if_pos rfl]
    rfl
  · rw [hproj, if_neg hk]
    exact splitLines_joinLines _ hk hsub

/-- Everything produced by the de-duplication loop comes from its input. -/
theorem mem_of_mem_dedupKeepFirst (l : List (List Char)) :
    ∀ seen c, c ∈ dedupKeepFirst seen l → c ∈ l := by
  induction l with
  | nil =>
    intro seen c h
    simp [dedupKeepFirst] at h
  | cons a rest ih =>
    intro seen c h
    by_cases ha : a ∈ seen
    · simp only [dedupKeepFirst, if_pos ha] at h
      exact List.mem_cons_of_mem _ (ih seen c h)
    · simp only [dedupKeepFirst, if_neg ha] at h
      rcases List.mem_cons.mp h with h1 | h1
      · simp [h1]
      · exact List.mem_cons_of_mem _ (ih (a :: seen) c h1)

/-- The de-duplication loop never emits an element of its seen set. -/
theorem not_mem_seen_dedupKeepFirst (l : List (List Char)) :
    ∀ seen c, c ∈ dedupKeepFirst seen l → c ∉ seen := by
  induction l with
  | nil =>
    intro seen c h
    simp [dedupKeepFirst] at h
  | cons a rest ih =>
    intro seen c h
    by_cases ha : a ∈ seen
    · simp only [dedupKeepFirst, if_pos ha] at h
      exact ih seen c h
    · simp only [dedupKeepFirst, if_neg ha] at h
      rcases List.mem_cons.mp h with h1 | h1
      · subst h1
        exact ha
      · intro hs
        exact ih (a :: seen) c h1 (List.mem_cons_of_mem _ hs)

/-- The de-duplication loop emits no duplicates. -/
theorem nodup_dedupKeepFirst (l : List (List Char)) :
    ∀ seen, (dedupKeepFirst seen l).Nodup := by
  induction l with
  | nil =>
    intro seen
    simp [dedupKeepFirst]
  | cons a rest ih =>
    intro seen
    by_cases ha : a ∈ seen
    · simp only [dedupKeepFirst, if_pos ha]
      exact ih seen
    · simp only [dedupKeepFirst, if_neg ha]
      rw [List.nodup_cons]
      refine ⟨?_, ih (a :: seen)⟩
      intro hmem
      exact not_mem_seen_dedupKeepFirst rest (a :: seen) a hmem (List.mem_cons_self a seen)

/-- A successful backtracked capture is a nonempty dot-matchable run. -/
theorem tryCapture_some (after : List Char) :
    ∀ k r, tryCapture after k = some r → (!r.isEmpty && r.all dotOk) = true := by
  intro k
  induction k with
  | zero =>
    intro r h
    simp only [tryCapture] at h
    split_ifs at h with hc
    · cases h
      exact hc
  | succ k ih =>
    intro r h
    simp only [tryCapture] at h
    split_ifs at h with hc
    · cases h
      exact hc
    · exact ih r h

/-- A successful dollar-line capture is a nonempty dot-matchable run. -/
theorem dollarCapture_some (ln : List Char) :
    ∀ r, dollarCapture ln = some r → (!r.isEmpty && r.all dotOk) = true := by
  intro r h
  cases ln with
  | nil => simp [dollarCapture] at h
  | cons c rest =>
    simp only [dollarCapture] at h
    split_ifs at h with hc
    · exact tryCapture_some rest _ r h

/-- C5 counterexample: on the input text consisting of the single line
dollar space hash x, the extracted command list is exactly the comment
hash x, which still starts with the comment character after prompt
stripping and trimming — refuting the claim that no extracted command is
a comment line after stripping. -/
theorem extractCommands_comment_counterexample :
    extractCommandsFromText ['$', ' ', '#', 'x'] = [['#', 'x']]
  ∧ startsWithHash (trimChars (stripDollar ['#', 'x'])) = true := by
  constructor
  · decide
  · decide

/-- C5 amended: for every input text, the extracted command list has no
duplicates (the first occurrence is kept, in order), contains no command
that is the empty string, and has length at most twenty; but commands
captured from dollar-prompt lines bypass the comment and emptiness filter
applied to code-block lines, so a comment or whitespace-only command can
appear (as the counterexample shows). -/
theorem extractCommands_nodup_nonempty_bounded (text : List Char) :
    (extractCommandsFromText text).Nodup
  ∧ (extractCommandsFromText text).all (fun c => !c.isEmpty) = true
  ∧ (extractCommandsFromText text).length ≤ 20 := by
  refine ⟨?_, ?_, ?_⟩
  · exact List.Nodup.sublist (List.take_sublist _ _) (nodup_dedupKeepFirst _ [])
  · rw [List.all_eq_true]
    intro c hc
    have h1 : c ∈ dedupKeepFirst []
        ((scanBlocks text.length text).flatMap processBlock ++
          (splitLines text).filterMap dollarCapture) :=
      (List.take_sublist _ _).subset hc
    have h2 := mem_of_mem_dedupKeepFirst _ [] c h1
    rcases List.mem_append.mp h2 with h3 | h3
    · rcases List.mem_flatMap.mp h3 with ⟨b, _, hcb⟩
      have hp := (List.mem_filter.mp hcb).2
      simp only [Bool.and_eq_true] at hp
      exact hp.1
    · rcases List.mem_filterMap.mp h3 with ⟨ln, _, hcap⟩
      have hp := dollarCapture_some ln c hcap
      simp only [Bool.and_eq_true] at hp
      exact hp.1
  · show ((dedupKeepFirst []
        ((scanBlocks text.length text).flatMap processBlock ++
          (splitLines text).filterMap dollarCapture)).take 20).length ≤ 20
    rw [List.length_take]
    exact Nat.min_le_left _ _
